import Mathlib

/-!
Verification development for the Kora SDK (python).

This file gives a shallow embedding of the core logic of the repository:

* `crypto.py`: `canonicalize` / `sort_keys_deep` (canonical JSON bytes),
  `parse_agent_key`, `verify_signature`, `verify_seal`;
* `client.py`: `Kora.verify_seal` (seal reconstruction) and the
  decision-extraction logic of `parse_response` together with
  `AuthorizationResult.approved` from `types.py`;
* `kora_sandbox.py`: the `SandboxEngine` budget evaluation pipeline
  (`spend`, `_auto_reset_if_new_day`, `get_budget`).

Python values that can appear in a JSON document are modelled by `PyVal`;
Python `str` is modelled by Lean `String` (both are sequences of unicode
code points, and Python compares strings by code point exactly as the
`listLe` order below does).  The output of `canonicalize` is modelled as the
serialized text; the Python function returns its UTF-8 encoding, which is a
function of the text, so byte-identity of outputs is exactly equality of the
serialized strings.  Ed25519, SHA-256 and base64 are external library
primitives (PyNaCl / hashlib / base64); they are parameters of the
development (`CryptoPrims`), and the theorems hold for every choice of
those primitives.
-/

/-- Code-point (lexicographic) order on lists of characters, as a boolean.
This is exactly how Python compares two `str` values. -/
def listLe : List Char → List Char → Bool
  | [], _ => true
  | _ :: _, [] => false
  | c :: cs, d :: ds =>
      if c.toNat < d.toNat then true
      else if d.toNat < c.toNat then false
      else listLe cs ds

/-- Python string comparison `s <= t` (code-point order). -/
def strLe (s t : String) : Bool := listLe s.data t.data

theorem listLe_total : ∀ as bs, listLe as bs = true ∨ listLe bs as = true := by
  intro as
  induction as with
  | nil => intro bs; left; cases bs <;> rfl
  | cons c cs ih =>
      intro bs
      cases bs with
      | nil => right; rfl
      | cons d ds =>
          by_cases h1 : c.toNat < d.toNat
          · left; simp [listLe, h1]
          · by_cases h2 : d.toNat < c.toNat
            · right; simp [listLe, h1, h2]
            · rcases ih ds with h | h
              · left; simp [listLe, h1, h2, h]
              · right; simp [listLe, h1, h2, h]

theorem listLe_trans : ∀ as bs cs, listLe as bs = true → listLe bs cs = true →
    listLe as cs = true := by
  intro as
  induction as with
  | nil => intro bs cs _ _; cases cs <;> simp [listLe]
  | cons a as ih =>
      intro bs cs h1 h2
      cases bs with
      | nil => simp [listLe] at h1
      | cons b bs =>
          cases cs with
          | nil => simp [listLe] at h2
          | cons c cs =>
              simp only [listLe] at h1 h2 ⊢
              split_ifs at h1 h2 ⊢ <;> try (first | rfl | omega)
              all_goals exact ih bs cs h1 h2

theorem char_eq_of_toNat_eq {a b : Char} (h : a.toNat = b.toNat) : a = b := by
  apply Char.ext
  apply UInt32.ext
  simpa [Char.toNat, UInt32.toNat] using h

theorem listLe_antisymm : ∀ as bs, listLe as bs = true → listLe bs as = true → as = bs := by
  intro as
  induction as with
  | nil =>
      intro bs _ h2
      cases bs with
      | nil => rfl
      | cons b bs => simp [listLe] at h2
  | cons a as ih =>
      intro bs h1 h2
      cases bs with
      | nil => simp [listLe] at h1
      | cons b bs =>
          simp only [listLe] at h1 h2
          split_ifs at h1 h2 <;> try omega
          have hab : a = b := char_eq_of_toNat_eq (by omega)
          subst hab
          rw [ih bs h1 h2]

theorem strLe_antisymm {s t : String} (h1 : strLe s t = true) (h2 : strLe t s = true) :
    s = t :=
  String.ext (listLe_antisymm s.data t.data h1 h2)

/-- Model of a Python value that may appear below `canonicalize`:
`None`, `bool`, `int`, `str`, `list`, `dict` (with string keys, keeping
insertion order), and `other` for any object of a type that `json.dumps`
cannot serialize (sets, custom classes, ...); the tag records the class
name used in the `TypeError` message. -/
inductive PyVal where
  | null
  | bool (b : Bool)
  | int (n : Int)
  | str (s : String)
  | list (xs : List PyVal)
  | dict (kvs : List (String × PyVal))
  | other (tag : String)

/-- Key order used to sort the items of a dict: compare first components.
Python compares the `(key, value)` tuples themselves, but a dict never has
two equal keys, so the comparison never reaches the values. -/
def keyLE (a b : String × PyVal) : Prop := strLe a.1 b.1 = true

instance : DecidableRel keyLE := fun a b => by unfold keyLE; infer_instance

instance : IsTotal (String × PyVal) keyLE :=
  ⟨fun a b => listLe_total a.1.data b.1.data⟩

instance : IsTrans (String × PyVal) keyLE :=
  ⟨fun a b c h1 h2 => listLe_trans a.1.data b.1.data c.1.data h1 h2⟩

/-- Strict key order; used only to show sorted outputs are unique. -/
def keyLT (a b : String × PyVal) : Prop := keyLE a b ∧ a.1 ≠ b.1

instance : IsAntisymm (String × PyVal) keyLT :=
  ⟨fun _ _ h1 h2 => absurd (strLe_antisymm h1.1 h2.1) h1.2⟩

/-- One lowercase hexadecimal digit. -/
def hexDigit (n : Nat) : Char :=
  if n < 10 then Char.ofNat (48 + n) else Char.ofNat (87 + n)

/-- Escaping of a single character inside a JSON string, as done by
`json.dumps(..., ensure_ascii=False)`: only `"` (34), `\` (92) and control
characters below 0x20 are escaped; everything else (non-ASCII included) is
emitted literally. -/
def escapeChar (c : Char) : String :=
  if c.toNat = 34 then "\\\""
  else if c.toNat = 92 then "\\\\"
  else if c.toNat = 8 then "\\b"
  else if c.toNat = 9 then "\\t"
  else if c.toNat = 10 then "\\n"
  else if c.toNat = 12 then "\\f"
  else if c.toNat = 13 then "\\r"
  else if c.toNat < 32 then
    "\\u00" ++ String.singleton (hexDigit (c.toNat / 16))
      ++ String.singleton (hexDigit (c.toNat % 16))
  else String.singleton c

/-- Concatenation of a list of strings. -/
def concatList : List String → String
  | [] => ""
  | s :: rest => s ++ concatList rest

/-- JSON encoding of a Python string. -/
def encodeJsonString (s : String) : String :=
  "\"" ++ concatList (s.data.map escapeChar) ++ "\""

/-- Interleave a separator, as `str.join` does. -/
def joinSep (sep : String) : List String → String
  | [] => ""
  | [x] => x
  | x :: xs => x ++ sep ++ joinSep sep xs

/-- The `TypeError` raised by `json.dumps` on a value with no defined
canonical form; the spec calls this class of failure `EncodingError`. -/
structure EncodingError where
  msg : String

mutual

/-- Model of `json.dumps(obj, separators=(",", ":"), ensure_ascii=False)`:
compact separators, no inserted whitespace, array order preserved, text
emitted without escaping non-ASCII characters, `TypeError` (`EncodingError`)
on a value with no defined canonical form. -/
def serialize : PyVal → Except EncodingError String
  | .null => .ok "null"
  | .bool b => .ok (if b then "true" else "false")
  | .int n => .ok (toString n)
  | .str s => .ok (encodeJsonString s)
  | .list xs =>
      match serializeItems xs with
      | .ok parts => .ok ("[" ++ joinSep "," parts ++ "]")
      | .error e => .error e
  | .dict kvs =>
      match serializePairs kvs with
      | .ok parts => .ok ("\x7b" ++ joinSep "," parts ++ "\x7d")
      | .error e => .error e
  | .other tag => .error ⟨"Object of type " ++ tag ++ " is not JSON serializable"⟩

/-- Serialization of the elements of a JSON array, in order. -/
def serializeItems : List PyVal → Except EncodingError (List String)
  | [] => .ok []
  | x :: xs =>
      match serialize x with
      | .error e => .error e
      | .ok s =>
          match serializeItems xs with
          | .error e => .error e
          | .ok rest => .ok (s :: rest)

/-- Serialization of the `key:value` items of a JSON object, in order. -/
def serializePairs : List (String × PyVal) → Except EncodingError (List String)
  | [] => .ok []
  | (k, v) :: kvs =>
      match serialize v with
      | .error e => .error e
      | .ok s =>
          match serializePairs kvs with
          | .error e => .error e
          | .ok rest => .ok ((encodeJsonString k ++ ":" ++ s) :: rest)

end

mutual

/-- Model of `crypto.sort_keys_deep`: recursively sort dictionary keys for
deterministic serialization.  The source sorts the items first and then
recurses into the values (`{k: sort_keys_deep(v) for k, v in sorted(obj.items())}`);
since sorting compares only the (unchanged) keys, recursing first and then
sorting yields the same list. -/
def sort_keys_deep : PyVal → PyVal
  | .dict kvs => .dict (List.insertionSort keyLE (sortPairsVals kvs))
  | .list xs => .list (sortItemsVals xs)
  | .null => .null
  | .bool b => .bool b
  | .int n => .int n
  | .str s => .str s
  | .other tag => .other tag

/-- Apply `sort_keys_deep` to every value of a dict item list. -/
def sortPairsVals : List (String × PyVal) → List (String × PyVal)
  | [] => []
  | (k, v) :: kvs => (k, sort_keys_deep v) :: sortPairsVals kvs

/-- Apply `sort_keys_deep` to every element of a list. -/
def sortItemsVals : List PyVal → List PyVal
  | [] => []
  | x :: xs => sort_keys_deep x :: sortItemsVals xs

end

/-- Model of `crypto.canonicalize`: canonical JSON text (sorted keys,
compact separators).  The Python function returns the UTF-8 encoding of
this text. -/
def canonicalize (obj : PyVal) : Except EncodingError String :=
  serialize (sort_keys_deep obj)

mutual

/-- Does a value contain (at any depth) an object of a type with no
defined canonical form? -/
def containsUnsupported : PyVal → Bool
  | .null => false
  | .bool _ => false
  | .int _ => false
  | .str _ => false
  | .list xs => itemsHaveUnsupported xs
  | .dict kvs => pairsHaveUnsupported kvs
  | .other _ => true

/-- List version of `containsUnsupported`. -/
def itemsHaveUnsupported : List PyVal → Bool
  | [] => false
  | x :: xs => containsUnsupported x || itemsHaveUnsupported xs

/-- Dict-item version of `containsUnsupported`. -/
def pairsHaveUnsupported : List (String × PyVal) → Bool
  | [] => false
  | (_, v) :: kvs => containsUnsupported v || pairsHaveUnsupported kvs

end

/-- External cryptographic / codec primitives used by `crypto.py`.  The
development is parametric in them: every theorem below holds for every
behaviour of the external libraries.  A decode failure (the library raising)
is modelled as `none`. -/
structure CryptoPrims where
  b64decode : String → Option (List Nat)
  b64ToUtf8 : String → Option String
  ed25519_verify : List Nat → List Nat → List Nat → Bool
  sha256 : String → List Nat

/-- Model of `crypto.verify_signature`: decode the public key, build a
`VerifyKey` (PyNaCl raises unless the key is exactly 32 bytes), decode the
signature, check its length (PyNaCl raises unless it is exactly 64 bytes)
and verify; every failure anywhere in the chain is caught by the
`except (BadSignatureError, Exception)` handler and collapses to `False`. -/
def verify_signature (P : CryptoPrims) (message : List Nat)
    (signature_b64 public_key_b64 : String) : Bool :=
  match P.b64decode public_key_b64 with
  | none => false
  | some pkb =>
      if pkb.length ≠ 32 then false
      else
        match P.b64decode signature_b64 with
        | none => false
        | some sig =>
            if sig.length ≠ 64 then false
            else P.ed25519_verify pkb message sig

/-- Model of `crypto.verify_seal`: hash the canonical JSON of the decision
payload with SHA-256, then verify the digest bytes.  The `sha256` primitive
consumes the canonical text (its UTF-8 bytes in Python).  A `TypeError`
raised by `canonicalize` propagates to the caller, hence the `Except`. -/
def crypto_verify_seal (P : CryptoPrims) (decision_payload : PyVal)
    (signature_b64 public_key_b64 : String) : Except EncodingError Bool :=
  match canonicalize decision_payload with
  | .error e => .error e
  | .ok canonical =>
      .ok (verify_signature P (P.sha256 canonical) signature_b64 public_key_b64)

/-- The fixed literal lead of an agent secret key string (source constant
`AGENT_SK_` followed by `PREFIX`, with value `"kora_agent_sk_"`). -/
def AGENT_SK_TAG : String := "kora_agent_sk_"

/-- Python ASCII whitespace (skipped by `bytes.fromhex`). -/
def isPyWs (c : Char) : Bool := c.toNat = 32 || (9 ≤ c.toNat && c.toNat ≤ 13)

/-- Is this character a hexadecimal digit? -/
def isHexDig (c : Char) : Bool :=
  (48 ≤ c.toNat && c.toNat ≤ 57)
    || (97 ≤ c.toNat && c.toNat ≤ 102)
    || (65 ≤ c.toNat && c.toNat ≤ 70)

/-- Numeric value of a hexadecimal digit. -/
def hexVal (c : Char) : Nat :=
  if c.toNat ≤ 57 then c.toNat - 48
  else if c.toNat ≤ 70 then c.toNat - 55
  else c.toNat - 87

/-- Model of `bytes.fromhex`: two hexadecimal digits per byte, ASCII
whitespace allowed around byte pairs; anything else is a `ValueError`
(modelled as `none`). -/
def fromhex : List Char → Option (List Nat)
  | [] => some []
  | [c] => if isPyWs c then some [] else none
  | c :: d :: cs2 =>
      if isPyWs c then fromhex (d :: cs2)
      else if isHexDig c then
        if isHexDig d then
          (fromhex cs2).map (fun bs => (hexVal c * 16 + hexVal d) :: bs)
        else none
      else none

/-- The `ValueError`s raised by `crypto.parse_agent_key`, one constructor
per raise site; the spec calls this class of failure `FormatError`. -/
inductive AgentKeyError where
  | badTag
  | badBase64
  | missingSeparator
  | emptyAgentId
  | badHex
  | wrongLength (got : Nat)
deriving DecidableEq

/-- An Ed25519 signing key built from a 32-byte seed (`nacl.signing.SigningKey`). -/
structure SigningKey where
  seed : List Nat
deriving DecidableEq

/-- Model of `crypto.parse_agent_key`.  The string must start with the
fixed literal lead; the remainder must be base64 decoding to UTF-8 text
(`b64ToUtf8`, one `try` block in the source); the text must contain a `:`;
the part before the first `:` (the agent id) must be non-empty; the part
after it must be valid hex decoding to exactly 32 bytes.  Strings are
handled at the code-point (`.data`) level, which is how Python indexes
`str`.  Pure function: no side effects. -/
def parse_agent_key (P : CryptoPrims) (key_string : String) :
    Except AgentKeyError (String × SigningKey) :=
  if ¬ (AGENT_SK_TAG.data.isPrefixOf key_string.data) then .error .badTag
  else
    match P.b64ToUtf8 ⟨key_string.data.drop AGENT_SK_TAG.data.length⟩ with
    | none => .error .badBase64
    | some decoded =>
        if ¬ (':' ∈ decoded.data) then .error .missingSeparator
        else
          if decoded.data.takeWhile (fun c => c != ':') = [] then .error .emptyAgentId
          else
            match fromhex ((decoded.data.dropWhile (fun c => c != ':')).drop 1) with
            | none => .error .badHex
            | some seed =>
                if seed.length ≠ 32 then .error (.wrongLength seed.length)
                else .ok (⟨decoded.data.takeWhile (fun c => c != ':')⟩, ⟨seed⟩)

/-- Model of `types.NotarySeal` (the fields `Kora.verify_seal` reads). -/
structure NotarySeal where
  signature : String
  public_key_id : String
  algorithm : String
  signed_fields : List String
  timestamp : String
  payload_hash : Option String

/-- Model of `types.AuthorizationResult`, restricted to the fields read by
`Kora.verify_seal` (the twelve entries of its `field_map` plus the seal). -/
structure AuthorizationResult where
  intent_id : String
  mandate_id : Option String
  mandate_version : Option Int
  decision : String
  reason_code : String
  amount_cents : Option Int
  currency : Option String
  vendor_id : Option String
  evaluated_at : String
  ttl_seconds : Option Int
  enforcement_mode : Option String
  executable : Bool
  notary_seal : Option NotarySeal

/-- A Python optional string as a JSON value (`None` becomes `null`). -/
def optStr : Option String → PyVal
  | none => .null
  | some s => .str s

/-- A Python optional int as a JSON value. -/
def optInt : Option Int → PyVal
  | none => .null
  | some n => .int n

/-- The `field_map` dict built by `Kora.verify_seal`: the twelve known
decision-record fields, in source order; the key `"status"` carries
`result.decision`. -/
def field_map (r : AuthorizationResult) : List (String × PyVal) :=
  [("intent_id", .str r.intent_id),
   ("mandate_id", optStr r.mandate_id),
   ("mandate_version", optInt r.mandate_version),
   ("status", .str r.decision),
   ("reason_code", .str r.reason_code),
   ("amount_cents", optInt r.amount_cents),
   ("currency", optStr r.currency),
   ("vendor_id", optStr r.vendor_id),
   ("evaluated_at", .str r.evaluated_at),
   ("ttl_seconds", optInt r.ttl_seconds),
   ("enforcement_mode", optStr r.enforcement_mode),
   ("executable", .bool r.executable)]

/-- Python dict item assignment `d[k] = v`: update in place if the key is
present, else append at the end (insertion order). -/
def dictSet : List (String × PyVal) → String → PyVal → List (String × PyVal)
  | [], k, v => [(k, v)]
  | (k1, v1) :: rest, k, v =>
      if k1 = k then (k, v) :: rest else (k1, v1) :: dictSet rest k v

/-- The `decision_payload` loop of `Kora.verify_seal`: walk `signed_fields`
in order and copy the named field when it is among the known fields; a name
not in the field map is skipped without error. -/
def reconstruct_payload (fm : List (String × PyVal)) (fields : List String) :
    List (String × PyVal) :=
  fields.foldl
    (fun acc f =>
      match fm.lookup f with
      | some v => dictSet acc f v
      | none => acc)
    []

/-- Model of `client.Kora.verify_seal`: `False` when the result carries no
seal; otherwise reconstruct the signed subset of the decision record and
check it against the seal signature via `crypto.verify_seal`. -/
def kora_verify_seal (P : CryptoPrims) (r : AuthorizationResult)
    (kora_public_key : String) : Except EncodingError Bool :=
  match r.notary_seal with
  | none => .ok false
  | some sl =>
      crypto_verify_seal P (.dict (reconstruct_payload (field_map r) sl.signed_fields))
        sl.signature kora_public_key

/-- Python truthiness of a JSON value. -/
def pyTruthy : PyVal → Bool
  | .null => false
  | .bool b => b
  | .int n => n != 0
  | .str s => s != ""
  | .list xs => !xs.isEmpty
  | .dict kvs => !kvs.isEmpty
  | .other _ => true

/-- Python `dict.get(k)`: the stored value, or `None` when absent. -/
def raw_get (raw : List (String × PyVal)) (k : String) : PyVal :=
  (raw.lookup k).getD .null

/-- Python `a or b`: the first operand when it is truthy, else the second. -/
def pyOr (a b : PyVal) : PyVal := if pyTruthy a then a else b

/-- The decision extraction of `client.parse_response`:
`raw.get("decision") or raw.get("status") or "DENIED"`. -/
def parse_response_decision (raw : List (String × PyVal)) : PyVal :=
  pyOr (pyOr (raw_get raw "decision") (raw_get raw "status")) (.str "DENIED")

/-- The `approved` property of the parsed result
(`types.AuthorizationResult.approved`): `decision == "APPROVED"`; in Python
the comparison of a non-string decision with `"APPROVED"` is `False`. -/
def response_approved (raw : List (String × PyVal)) : Bool :=
  match parse_response_decision raw with
  | .str s => s == "APPROVED"
  | _ => false

/-- A UTC calendar date as used by `SandboxEngine` (`datetime.date`). -/
structure UTCDate where
  year : Nat
  month : Nat
  day : Nat
deriving DecidableEq

/-- Model of the mutable state of `kora_sandbox.SandboxEngine` (the
`_warned` flag, which only gates a stderr message, is omitted). -/
structure SandboxState where
  daily_limit : Int
  monthly_limit : Int
  currency : String
  per_tx_max : Option Int
  allowed_vendors : Option (List String)
  daily_spent : Int
  monthly_spent : Int
  tx_count : Nat
  start_date : UTCDate
deriving DecidableEq

/-- The state built by `SandboxEngine.__init__` from
`DEFAULT_SANDBOX_CONFIG` (daily 1,000,000 cents, monthly 5,000,000 cents,
EUR, no per-transaction cap, no vendor allow-list, counters at zero). -/
def defaultSandboxState (d : UTCDate) : SandboxState :=
  { daily_limit := 1000000
    monthly_limit := 5000000
    currency := "EUR"
    per_tx_max := none
    allowed_vendors := none
    daily_spent := 0
    monthly_spent := 0
    tx_count := 0
    start_date := d }

/-- Model of `SandboxEngine._auto_reset_if_new_day`, with today's UTC date
passed explicitly: when the date changed, zero the daily counter and store
the new date, and additionally zero the monthly counter on the first of the
month; otherwise do nothing. -/
def auto_reset_if_new_day (today : UTCDate) (s : SandboxState) : SandboxState :=
  if today ≠ s.start_date then
    let s1 := { s with daily_spent := 0, start_date := today }
    if today.day = 1 then { s1 with monthly_spent := 0 } else s1
  else s

/-- Python ASCII lowercasing of one character (`str.lower`; the sandbox
only ever receives ASCII vendor ids in the repository's tests). -/
def asciiLower (c : Char) : Char :=
  if 65 ≤ c.toNat ∧ c.toNat ≤ 90 then Char.ofNat (c.toNat + 32) else c

/-- Python ASCII uppercasing of one character (`str.upper`). -/
def asciiUpper (c : Char) : Char :=
  if 97 ≤ c.toNat ∧ c.toNat ≤ 122 then Char.ofNat (c.toNat - 32) else c

/-- Model of `str.lower`. -/
def py_lower (s : String) : String := ⟨s.data.map asciiLower⟩

/-- Model of `str.upper`. -/
def py_upper (s : String) : String := ⟨s.data.map asciiUpper⟩

/-- Model of `str.strip`: remove leading and trailing whitespace. -/
def py_strip (s : String) : String :=
  ⟨((s.data.dropWhile isPyWs).reverse.dropWhile isPyWs).reverse⟩

/-- The outcome fields of one `SandboxEngine.spend` call that are
independent of the random `decision_id` / wall-clock timestamps / message
text: the decision, its reason code, and `retry_with["amount_cents"]`
(`none` when `retry_with` is `None`). -/
structure SpendOutcome where
  approved : Bool
  decision : String
  reason_code : String
  retry_with : Option Int
deriving DecidableEq

/-- The `ValueError` raised by the input validation of
`SandboxEngine.spend`; the spec calls this class of failure
`ValidationError`. -/
structure ValidationError where
  msg : String
deriving DecidableEq

/-- A denied outcome (`_build_denied`). -/
def deniedOutcome (reason_code : String) (retry_with : Option Int) : SpendOutcome :=
  { approved := false, decision := "DENIED", reason_code := reason_code,
    retry_with := retry_with }

/-- Check 1 of the evaluation pipeline: currency mismatch. -/
def currency_mismatch (s : SandboxState) (currency : String) : Bool :=
  currency != s.currency

/-- Check 2: vendor not in the allow-list (skipped when no list is configured). -/
def vendor_not_allowed (s : SandboxState) (vendor : String) : Bool :=
  match s.allowed_vendors with
  | none => false
  | some vs => !(vs.contains vendor)

/-- Check 3: per-transaction cap exceeded (skipped when unconfigured). -/
def per_tx_exceeded (s : SandboxState) (amount_cents : Int) : Bool :=
  match s.per_tx_max with
  | none => false
  | some m => decide (m < amount_cents)

/-- Check 4: amount above the remaining daily budget. -/
def daily_exceeded (s : SandboxState) (amount_cents : Int) : Bool :=
  decide (s.daily_limit - s.daily_spent < amount_cents)

/-- Check 5: amount above the remaining monthly budget. -/
def monthly_exceeded (s : SandboxState) (amount_cents : Int) : Bool :=
  decide (s.monthly_limit - s.monthly_spent < amount_cents)

/-- The evaluation pipeline of `SandboxEngine.spend` after validation and
normalization: fixed order currency → vendor allow-list → per-transaction
cap → daily → monthly, short-circuiting on the first failing check; only
the final approval branch mutates the counters. -/
def evaluateChecks (s : SandboxState) (vendor : String) (amount_cents : Int)
    (currency : String) : SpendOutcome × SandboxState :=
  if currency_mismatch s currency then
    (deniedOutcome "CURRENCY_MISMATCH" none, s)
  else if vendor_not_allowed s vendor then
    (deniedOutcome "VENDOR_NOT_ALLOWED" none, s)
  else if per_tx_exceeded s amount_cents then
    (deniedOutcome "PER_TRANSACTION_LIMIT_EXCEEDED" s.per_tx_max, s)
  else if daily_exceeded s amount_cents then
    (deniedOutcome "DAILY_LIMIT_EXCEEDED"
      (if 0 < s.daily_limit - s.daily_spent then some (s.daily_limit - s.daily_spent)
       else none), s)
  else if monthly_exceeded s amount_cents then
    (deniedOutcome "MONTHLY_LIMIT_EXCEEDED"
      (if 0 < s.monthly_limit - s.monthly_spent then some (s.monthly_limit - s.monthly_spent)
       else none), s)
  else
    ({ approved := true, decision := "APPROVED", reason_code := "OK", retry_with := none },
     { s with daily_spent := s.daily_spent + amount_cents,
              monthly_spent := s.monthly_spent + amount_cents,
              tx_count := s.tx_count + 1 })

/-- Specification-side definition for the ordering claim: the reason code of
the first violated check in the fixed order currency, vendor allow-list,
per-transaction cap, daily remaining, monthly remaining (`none` when no check
is violated). -/
def firstFailedCheck (s : SandboxState) (vendor : String) (amount_cents : Int)
    (currency : String) : Option String :=
  (([(currency_mismatch s currency, "CURRENCY_MISMATCH"),
     (vendor_not_allowed s vendor, "VENDOR_NOT_ALLOWED"),
     (per_tx_exceeded s amount_cents, "PER_TRANSACTION_LIMIT_EXCEEDED"),
     (daily_exceeded s amount_cents, "DAILY_LIMIT_EXCEEDED"),
     (monthly_exceeded s amount_cents, "MONTHLY_LIMIT_EXCEEDED")].find?
      (fun p => p.1)).map (fun p => p.2))

/-- The body of `SandboxEngine.spend` after `_auto_reset_if_new_day`:
input validation (amount a strictly positive integer, vendor a non-empty
string, currency a 3-character string), then normalization
(`currency.upper()`, `vendor.strip().lower()`), then the check pipeline.
The second component is the engine state after the call; a `ValueError`
aborts before any counter mutation, so the state is returned unchanged. -/
def spendCore (s : SandboxState) (vendor : String) (amount_cents : Int)
    (currency : String) : Except ValidationError SpendOutcome × SandboxState :=
  if amount_cents ≤ 0 then
    (.error ⟨"amount_cents must be a positive integer"⟩, s)
  else if vendor = "" then
    (.error ⟨"vendor must be a non-empty string"⟩, s)
  else if currency.length ≠ 3 then
    (.error ⟨"currency must be a 3-letter ISO 4217 code"⟩, s)
  else
    let r := evaluateChecks s (py_lower (py_strip vendor)) amount_cents (py_upper currency)
    (.ok r.1, r.2)

/-- Model of `SandboxEngine.spend`: calendar rollover first, then the
validation/evaluation body. -/
def spend (today : UTCDate) (s : SandboxState) (vendor : String)
    (amount_cents : Int) (currency : String) :
    Except ValidationError SpendOutcome × SandboxState :=
  spendCore (auto_reset_if_new_day today s) vendor amount_cents currency

/-- The numeric/configuration part of the dict returned by
`SandboxEngine.get_budget` (the `resets_at` timestamps and the constant
`status` / `spend_allowed` / `enforcement_mode` fields depend only on the
clock or are literals and are omitted). -/
structure BudgetView where
  currency : String
  daily_limit_cents : Int
  daily_spent_cents : Int
  daily_remaining_cents : Int
  monthly_limit_cents : Int
  monthly_spent_cents : Int
  monthly_remaining_cents : Int
  per_transaction_max_cents : Option Int
  allowed_vendors : Option (List String)
deriving DecidableEq

/-- The budget numbers `get_budget` reads from the engine state. -/
def budgetView (s : SandboxState) : BudgetView :=
  { currency := s.currency
    daily_limit_cents := s.daily_limit
    daily_spent_cents := s.daily_spent
    daily_remaining_cents := s.daily_limit - s.daily_spent
    monthly_limit_cents := s.monthly_limit
    monthly_spent_cents := s.monthly_spent
    monthly_remaining_cents := s.monthly_limit - s.monthly_spent
    per_transaction_max_cents := s.per_tx_max
    allowed_vendors := s.allowed_vendors }

/-- Model of `SandboxEngine.get_budget`: calendar rollover first, then read
the budget numbers from the state. -/
def get_budget (today : UTCDate) (s : SandboxState) : BudgetView :=
  budgetView (auto_reset_if_new_day today s)

mutual

theorem serialize_error_iff : ∀ v : PyVal,
    (∃ e, serialize v = .error e) ↔ containsUnsupported v = true
  | .null => by simp [serialize, containsUnsupported]
  | .bool b => by simp [serialize, containsUnsupported]
  | .int n => by simp [serialize, containsUnsupported]
  | .str s => by simp [serialize, containsUnsupported]
  | .other tag => by simp [serialize, containsUnsupported]
  | .list xs => by
      have hxs := serializeItems_error_iff xs
      cases h : serializeItems xs with
      | ok parts =>
          simp only [serialize, h, containsUnsupported]
          rw [← hxs]
          simp [h]
      | error e =>
          simp only [serialize, h, containsUnsupported]
          rw [← hxs]
          simp [h]
  | .dict kvs => by
      have hkvs := serializePairs_error_iff kvs
      cases h : serializePairs kvs with
      | ok parts =>
          simp only [serialize, h, containsUnsupported]
          rw [← hkvs]
          simp [h]
      | error e =>
          simp only [serialize, h, containsUnsupported]
          rw [← hkvs]
          simp [h]

theorem serializeItems_error_iff : ∀ xs : List PyVal,
    (∃ e, serializeItems xs = .error e) ↔ itemsHaveUnsupported xs = true
  | [] => by simp [serializeItems, itemsHaveUnsupported]
  | x :: xs => by
      have hx := serialize_error_iff x
      have hxs := serializeItems_error_iff xs
      cases h1 : serialize x with
      | error e => simp [serializeItems, h1, itemsHaveUnsupported, ← hx, h1]
      | ok s =>
          have hcx : containsUnsupported x = false := by
            rcases hc : containsUnsupported x with _ | _
            · rfl
            · exact absurd (hx.mpr hc) (by simp [h1])
          cases h2 : serializeItems xs with
          | error e => simp [serializeItems, h1, h2, itemsHaveUnsupported, hcx, ← hxs, h2]
          | ok rest =>
              simp only [serializeItems, h1, h2, itemsHaveUnsupported, hcx, Bool.false_or]
              rw [← hxs]
              simp [h2]

theorem serializePairs_error_iff : ∀ kvs : List (String × PyVal),
    (∃ e, serializePairs kvs = .error e) ↔ pairsHaveUnsupported kvs = true
  | [] => by simp [serializePairs, pairsHaveUnsupported]
  | (k, v) :: kvs => by
      have hv := serialize_error_iff v
      have hkvs := serializePairs_error_iff kvs
      cases h1 : serialize v with
      | error e => simp [serializePairs, h1, pairsHaveUnsupported, ← hv, h1]
      | ok s =>
          have hcv : containsUnsupported v = false := by
            rcases hc : containsUnsupported v with _ | _
            · rfl
            · exact absurd (hv.mpr hc) (by simp [h1])
          cases h2 : serializePairs kvs with
          | error e => simp [serializePairs, h1, h2, pairsHaveUnsupported, hcv, ← hkvs, h2]
          | ok rest =>
              simp only [serializePairs, h1, h2, pairsHaveUnsupported, hcv, Bool.false_or]
              rw [← hkvs]
              simp [h2]

end

theorem pairsHave_eq_any (kvs : List (String × PyVal)) :
    pairsHaveUnsupported kvs = kvs.any (fun p => containsUnsupported p.2) := by
  induction kvs with
  | nil => rfl
  | cons p kvs ih => cases p with
    | mk k v => simp [pairsHaveUnsupported, ih]

theorem perm_any {α : Type} (f : α → Bool) {l₁ l₂ : List α} (h : l₁.Perm l₂) :
    l₁.any f = l₂.any f := by
  by_cases hb : l₂.any f = true
  · rw [hb]
    rw [List.any_eq_true] at hb ⊢
    obtain ⟨x, hx, hfx⟩ := hb
    exact ⟨x, h.mem_iff.mpr hx, hfx⟩
  · simp only [Bool.not_eq_true] at hb
    rw [hb]
    rw [List.any_eq_false] at hb ⊢
    intro x hx
    exact hb x (h.mem_iff.mp hx)

mutual

theorem containsUnsupported_sort : ∀ v : PyVal,
    containsUnsupported (sort_keys_deep v) = containsUnsupported v
  | .null => rfl
  | .bool b => rfl
  | .int n => rfl
  | .str s => rfl
  | .other tag => rfl
  | .list xs => by
      simp only [sort_keys_deep, containsUnsupported]
      exact itemsHave_sort xs
  | .dict kvs => by
      simp only [sort_keys_deep, containsUnsupported]
      rw [pairsHave_eq_any, perm_any _ (List.perm_insertionSort keyLE (sortPairsVals kvs)),
        ← pairsHave_eq_any]
      exact pairsHave_sort kvs

theorem itemsHave_sort : ∀ xs : List PyVal,
    itemsHaveUnsupported (sortItemsVals xs) = itemsHaveUnsupported xs
  | [] => rfl
  | x :: xs => by
      simp only [sortItemsVals, itemsHaveUnsupported]
      rw [containsUnsupported_sort x, itemsHave_sort xs]

theorem pairsHave_sort : ∀ kvs : List (String × PyVal),
    pairsHaveUnsupported (sortPairsVals kvs) = pairsHaveUnsupported kvs
  | [] => rfl
  | (k, v) :: kvs => by
      simp only [sortPairsVals, pairsHaveUnsupported]
      rw [containsUnsupported_sort v, pairsHave_sort kvs]

end

theorem canonicalize_error_iff (v : PyVal) :
    (∃ e, canonicalize v = .error e) ↔ containsUnsupported v = true := by
  have h := serialize_error_iff (sort_keys_deep v)
  rw [containsUnsupported_sort] at h
  exact h

theorem canonicalize_ok_iff (v : PyVal) :
    (∃ s, canonicalize v = .ok s) ↔ containsUnsupported v = false := by
  have h := canonicalize_error_iff v
  cases hc : canonicalize v with
  | ok s =>
      rcases hb : containsUnsupported v with _ | _
      · simp
      · exact absurd (h.mpr hb) (by simp [hc])
  | error e =>
      have : containsUnsupported v = true := h.mp ⟨e, hc⟩
      simp [this]

theorem sortPairsVals_eq_map (kvs : List (String × PyVal)) :
    sortPairsVals kvs = kvs.map (fun p => (p.1, sort_keys_deep p.2)) := by
  induction kvs with
  | nil => rfl
  | cons p kvs ih => cases p with
    | mk k v => simp [sortPairsVals, ih]

theorem sortItemsVals_eq_map (xs : List PyVal) :
    sortItemsVals xs = xs.map sort_keys_deep := by
  induction xs with
  | nil => rfl
  | cons x xs ih => simp [sortItemsVals, ih]

theorem sorted_keyLT {l : List (String × PyVal)} (hs : List.Sorted keyLE l)
    (hnd : (l.map Prod.fst).Nodup) : List.Sorted keyLT l := by
  have hne : l.Pairwise (fun a b => a.1 ≠ b.1) := List.pairwise_map.mp hnd
  exact hs.and hne

theorem insertionSort_eq_of_perm {l₁ l₂ : List (String × PyVal)} (h : l₁.Perm l₂)
    (hnd : (l₁.map Prod.fst).Nodup) :
    List.insertionSort keyLE l₁ = List.insertionSort keyLE l₂ := by
  have hnd₂ : (l₂.map Prod.fst).Nodup := ((h.map Prod.fst).nodup_iff).mp hnd
  have hnds : ((List.insertionSort keyLE l₁).map Prod.fst).Nodup :=
    (((List.perm_insertionSort keyLE l₁).map Prod.fst).nodup_iff).mpr hnd
  have hnds₂ : ((List.insertionSort keyLE l₂).map Prod.fst).Nodup :=
    (((List.perm_insertionSort keyLE l₂).map Prod.fst).nodup_iff).mpr hnd₂
  apply List.eq_of_perm_of_sorted (r := keyLT)
  · exact (List.perm_insertionSort keyLE l₁).trans
      (h.trans (List.perm_insertionSort keyLE l₂).symm)
  · exact sorted_keyLT (List.sorted_insertionSort keyLE l₁) hnds
  · exact sorted_keyLT (List.sorted_insertionSort keyLE l₂) hnds₂

theorem canonicalize_perm_eq {ps qs : List (String × PyVal)} (h : ps.Perm qs)
    (hnd : (ps.map Prod.fst).Nodup) :
    canonicalize (.dict ps) = canonicalize (.dict qs) := by
  suffices hs : sort_keys_deep (.dict ps) = sort_keys_deep (.dict qs) by
    rw [canonicalize, canonicalize, hs]
  simp only [sort_keys_deep]
  congr 1
  apply insertionSort_eq_of_perm
  · rw [sortPairsVals_eq_map, sortPairsVals_eq_map]
    exact h.map _
  · rw [sortPairsVals_eq_map]
    have hfst : (ps.map (fun p => (p.1, sort_keys_deep p.2))).map Prod.fst
        = ps.map Prod.fst := by
      rw [List.map_map]
      rfl
    rw [hfst]
    exact hnd

/-- A value all of whose dictionaries (at every nesting level, including
dictionaries nested inside arrays) have their keys in code-point order. -/
inductive KeysSortedDeep : PyVal → Prop where
  | null : KeysSortedDeep .null
  | bool (b : Bool) : KeysSortedDeep (.bool b)
  | int (n : Int) : KeysSortedDeep (.int n)
  | str (s : String) : KeysSortedDeep (.str s)
  | other (tag : String) : KeysSortedDeep (.other tag)
  | list (xs : List PyVal) (h : ∀ x ∈ xs, KeysSortedDeep x) : KeysSortedDeep (.list xs)
  | dict (kvs : List (String × PyVal)) (hs : List.Sorted keyLE kvs)
      (h : ∀ p ∈ kvs, KeysSortedDeep p.2) : KeysSortedDeep (.dict kvs)

theorem keysSortedDeep_sort : (v : PyVal) → KeysSortedDeep (sort_keys_deep v)
  | .null => .null
  | .bool b => .bool b
  | .int n => .int n
  | .str s => .str s
  | .other t => .other t
  | .list xs => by
      show KeysSortedDeep (.list (sortItemsVals xs))
      refine .list _ ?_
      intro x hx
      rw [sortItemsVals_eq_map] at hx
      obtain ⟨y, hy, rfl⟩ := List.mem_map.mp hx
      exact keysSortedDeep_sort y
  | .dict kvs => by
      show KeysSortedDeep (.dict (List.insertionSort keyLE (sortPairsVals kvs)))
      refine .dict _ (List.sorted_insertionSort keyLE _) ?_
      intro p hp
      have hp2 : p ∈ sortPairsVals kvs :=
        ((List.perm_insertionSort keyLE (sortPairsVals kvs)).mem_iff).mp hp
      rw [sortPairsVals_eq_map] at hp2
      obtain ⟨q, hq, rfl⟩ := List.mem_map.mp hp2
      exact keysSortedDeep_sort q.2
termination_by v => sizeOf v
decreasing_by
  · have h1 := List.sizeOf_lt_of_mem hy
    simp only [PyVal.list.sizeOf_spec]
    omega
  · have h1 := List.sizeOf_lt_of_mem hq
    have h2 : sizeOf q = 1 + sizeOf q.1 + sizeOf q.2 := by
      cases q
      simp
    simp only [PyVal.dict.sizeOf_spec]
    omega

theorem lookup_dictSet (acc : List (String × PyVal)) (k x : String) (v : PyVal) :
    (dictSet acc k v).lookup x = if x = k then some v else acc.lookup x := by
  induction acc with
  | nil =>
      by_cases h : x = k
      · simp [dictSet, List.lookup, h, beq_iff_eq.mpr h]
      · simp [dictSet, List.lookup, h, beq_false_of_ne h]
  | cons p rest ih =>
      cases p with
      | mk k1 v1 =>
          by_cases h1 : k1 = k
          · subst h1
            by_cases h : x = k1
            · simp [dictSet, List.lookup, h, beq_iff_eq.mpr h]
            · simp [dictSet, List.lookup, h, beq_false_of_ne h]
          · by_cases h : x = k
            · subst h
              have h2 : ¬ x = k1 := fun hc => h1 hc.symm
              simp [dictSet, h1, List.lookup, beq_false_of_ne h2, ih]
            · by_cases h2 : x = k1
              · simp [dictSet, h1, List.lookup, beq_iff_eq.mpr h2, ih, h]
              · simp [dictSet, h1, List.lookup, beq_false_of_ne h2, ih, h]

theorem lookup_reconstruct_aux (fm : List (String × PyVal)) (fields : List String)
    (f : String) : ∀ acc : List (String × PyVal),
    ((fields.foldl
        (fun acc g =>
          match fm.lookup g with
          | some v => dictSet acc g v
          | none => acc)
        acc).lookup f)
      = if f ∈ fields ∧ (fm.lookup f).isSome then fm.lookup f else acc.lookup f := by
  induction fields with
  | nil => intro acc; simp
  | cons g gs ih =>
      intro acc
      rw [List.foldl_cons, ih]
      by_cases hin : f ∈ gs ∧ (fm.lookup f).isSome
      · simp only [hin, if_true]
        have : f ∈ g :: gs ∧ (fm.lookup f).isSome := ⟨List.mem_cons_of_mem g hin.1, hin.2⟩
        simp [this]
      · simp only [hin, if_false]
        by_cases hfg : f = g
        · subst hfg
          cases hl : fm.lookup f with
          | some v =>
              have hmem : f ∈ f :: gs ∧ (fm.lookup f).isSome := by simp [hl]
              simp [hmem, hl, lookup_dictSet]
          | none =>
              have hmem : ¬ (f ∈ f :: gs ∧ (fm.lookup f).isSome) := by simp [hl]
              simp [hmem, hl]
        · have hmem : (f ∈ g :: gs ∧ (fm.lookup f).isSome) ↔ (f ∈ gs ∧ (fm.lookup f).isSome) := by
            simp [List.mem_cons, hfg]
          rw [if_neg (fun hc => hin (hmem.mp hc))]
          cases hl : fm.lookup g with
          | some v => simp [lookup_dictSet, hfg]
          | none => rfl

theorem lookup_reconstruct (fm : List (String × PyVal)) (fields : List String)
    (f : String) :
    (reconstruct_payload fm fields).lookup f
      = if f ∈ fields then fm.lookup f else none := by
  rw [reconstruct_payload, lookup_reconstruct_aux]
  by_cases hin : f ∈ fields
  · by_cases hsome : (fm.lookup f).isSome
    · simp [hin, hsome]
    · rw [Option.not_isSome_iff_eq_none] at hsome
      simp [hin, hsome]
  · simp [hin]

theorem mem_dictSet {q : String × PyVal} :
    ∀ (acc : List (String × PyVal)) (k : String) (v : PyVal),
    q ∈ dictSet acc k v → q = (k, v) ∨ q ∈ acc := by
  intro acc
  induction acc with
  | nil =>
      intro k v h
      have hd : dictSet [] k v = [(k, v)] := rfl
      rw [hd] at h
      cases h with
      | head => exact Or.inl rfl
      | tail _ hr => cases hr
  | cons p rest ih =>
      intro k v h
      cases p with
      | mk k1 v1 =>
          by_cases h1 : k1 = k
          · have hd : dictSet ((k1, v1) :: rest) k v = (k, v) :: rest := by
              simp [dictSet, h1]
            rw [hd] at h
            cases h with
            | head => exact Or.inl rfl
            | tail _ hr => exact Or.inr (List.mem_cons_of_mem _ hr)
          · have hd : dictSet ((k1, v1) :: rest) k v = (k1, v1) :: dictSet rest k v := by
              simp [dictSet, h1]
            rw [hd] at h
            cases h with
            | head => exact Or.inr (List.mem_cons_self _ _)
            | tail _ hr =>
                cases ih k v hr with
                | inl h2 => exact Or.inl h2
                | inr h2 => exact Or.inr (List.mem_cons_of_mem _ h2)

theorem reconstruct_values_aux (fm : List (String × PyVal)) (fields : List String) :
    ∀ acc : List (String × PyVal),
    (∀ q ∈ acc, ∃ g, fm.lookup g = some q.2) →
    ∀ q ∈ (fields.foldl
        (fun acc g =>
          match fm.lookup g with
          | some v => dictSet acc g v
          | none => acc)
        acc), ∃ g, fm.lookup g = some q.2 := by
  induction fields with
  | nil => intro acc hacc q hq; exact hacc q hq
  | cons g gs ih =>
      intro acc hacc q hq
      rw [List.foldl_cons] at hq
      refine ih _ ?_ q hq
      intro p hp
      cases hl : fm.lookup g with
      | some v =>
          rw [hl] at hp
          rcases mem_dictSet _ _ _ hp with h2 | h2
          · exact ⟨g, by rw [hl, h2]⟩
          · exact hacc p h2
      | none =>
          rw [hl] at hp
          exact hacc p hp

theorem reconstruct_values (fm : List (String × PyVal)) (fields : List String) :
    ∀ q ∈ reconstruct_payload fm fields, ∃ g, fm.lookup g = some q.2 :=
  reconstruct_values_aux fm fields [] (by intro q hq; simp at hq)

theorem mem_of_lookup_eq_some :
    ∀ {fm : List (String × PyVal)} {g : String} {v : PyVal},
    fm.lookup g = some v → (g, v) ∈ fm := by
  intro fm
  induction fm with
  | nil => intro g v h; simp [List.lookup] at h
  | cons p rest ih =>
      intro g v h
      cases p with
      | mk k1 v1 =>
          by_cases h1 : g = k1
          · subst h1
            simp [List.lookup] at h
            subst h
            exact List.mem_cons_self _ _
          · simp [List.lookup, beq_false_of_ne h1] at h
            exact List.mem_cons_of_mem _ (ih h)

theorem contains_optStr (o : Option String) : containsUnsupported (optStr o) = false := by
  cases o <;> rfl

theorem contains_optInt (o : Option Int) : containsUnsupported (optInt o) = false := by
  cases o <;> rfl

theorem field_map_values (r : AuthorizationResult) :
    ∀ p ∈ field_map r, containsUnsupported p.2 = false := by
  intro p hp
  simp only [field_map, List.mem_cons, List.not_mem_nil, or_false] at hp
  rcases hp with rfl | rfl | rfl | rfl | rfl | rfl | rfl | rfl | rfl | rfl | rfl | rfl <;>
    simp [contains_optStr, contains_optInt, containsUnsupported]

theorem reconstruct_no_unsupported (r : AuthorizationResult) (fields : List String) :
    containsUnsupported (.dict (reconstruct_payload (field_map r) fields)) = false := by
  simp only [containsUnsupported]
  rw [pairsHave_eq_any, List.any_eq_false]
  intro p hp
  obtain ⟨g, hg⟩ := reconstruct_values _ _ p hp
  have h2 := field_map_values r (g, p.2) (mem_of_lookup_eq_some hg)
  simpa using h2

theorem kora_verify_seal_never_errors (P : CryptoPrims) (r : AuthorizationResult)
    (pk : String) : ∃ b, kora_verify_seal P r pk = .ok b := by
  cases hseal : r.notary_seal with
  | none => exact ⟨false, by simp [kora_verify_seal, hseal]⟩
  | some sl =>
      obtain ⟨s, hs⟩ := (canonicalize_ok_iff
          (.dict (reconstruct_payload (field_map r) sl.signed_fields))).mpr
        (reconstruct_no_unsupported r sl.signed_fields)
      refine ⟨verify_signature P (P.sha256 s) sl.signature pk, ?_⟩
      simp [kora_verify_seal, hseal, crypto_verify_seal, hs]

theorem reconstruct_congr {fm₁ fm₂ : List (String × PyVal)} (fields : List String)
    (h : ∀ f ∈ fields, fm₁.lookup f = fm₂.lookup f) :
    reconstruct_payload fm₁ fields = reconstruct_payload fm₂ fields := by
  rw [reconstruct_payload, reconstruct_payload]
  suffices haux : ∀ acc : List (String × PyVal),
      (fields.foldl
        (fun acc g => match fm₁.lookup g with
          | some v => dictSet acc g v
          | none => acc) acc)
      = (fields.foldl
        (fun acc g => match fm₂.lookup g with
          | some v => dictSet acc g v
          | none => acc) acc) by
    exact haux []
  induction fields with
  | nil => intro acc; rfl
  | cons g gs ih =>
      intro acc
      rw [List.foldl_cons, List.foldl_cons, h g (List.mem_cons_self g gs)]
      exact ih (fun f hf => h f (List.mem_cons_of_mem g hf)) _

/-- C1: canonicalization is insertion-order independent: for any two dicts with
identical key/value pairs in different insertion order, the canonical bytes are
identical; the serialized value has its keys sorted by code-point order
recursively at every nesting level, including dicts nested inside arrays; and
on the concrete inputs the output preserves array element order, inserts no
whitespace, uses the separators comma and colon, leaves non-ASCII text
unescaped, and canonicalize of the dict b:2, a:1 is exactly the serialization
of a:1, b:2. -/
theorem C1_canonicalize_order_independent (ps qs : List (String × PyVal))
    (hperm : ps.Perm qs) (hnd : (ps.map Prod.fst).Nodup) :
    canonicalize (.dict ps) = canonicalize (.dict qs)
    ∧ (∀ v : PyVal, KeysSortedDeep (sort_keys_deep v))
    ∧ canonicalize (.dict [("b", .int 2), ("a", .int 1)])
        = .ok "\x7b\"a\":1,\"b\":2\x7d"
    ∧ canonicalize (.dict [("b", .list [.dict [("d", .int 1), ("c", .int 2)], .int 3]),
        ("α", .str "é z")])
        = .ok "\x7b\"b\":[\x7b\"c\":2,\"d\":1\x7d,3],\"α\":\"é z\"\x7d" :=
  ⟨canonicalize_perm_eq hperm hnd, keysSortedDeep_sort, rfl, rfl⟩

theorem C1_canonicalize_order_independent_witness :
    canonicalize (.dict [("b", PyVal.int 2), ("a", PyVal.int 1)])
      = canonicalize (.dict [("a", PyVal.int 1), ("b", PyVal.int 2)]) :=
  (C1_canonicalize_order_independent
    [("b", PyVal.int 2), ("a", PyVal.int 1)]
    [("a", PyVal.int 1), ("b", PyVal.int 2)]
    (List.Perm.swap _ _ _) (by decide)).1

/-- C2: for every decision record, seal and public key, verify_seal
reconstructs exactly those of the twelve known fields whose names appear in
signed_fields (a name not among the known fields is omitted without error, and
the call never raises), canonicalizes that subset, hashes it with SHA-256 and
verifies the digest against the seal signature with the public key; a result
carrying no seal gives false; and two results agreeing on the fields named in
signed_fields verify identically, so fields not listed never affect the
result.  Parametric in the crypto primitives. -/
theorem C2_verify_seal_reconstruction (P : CryptoPrims)
    (r₁ r₂ : AuthorizationResult) (pk : String) (sl : NotarySeal)
    (h₁ : r₁.notary_seal = some sl) (h₂ : r₂.notary_seal = some sl)
    (hagree : ∀ f ∈ sl.signed_fields,
      (field_map r₁).lookup f = (field_map r₂).lookup f) :
    kora_verify_seal P r₁ pk = kora_verify_seal P r₂ pk
    ∧ (∃ b, kora_verify_seal P r₁ pk = .ok b)
    ∧ (∀ f, (reconstruct_payload (field_map r₁) sl.signed_fields).lookup f
        = if f ∈ sl.signed_fields then (field_map r₁).lookup f else none)
    ∧ kora_verify_seal P r₁ pk
        = crypto_verify_seal P
            (.dict (reconstruct_payload (field_map r₁) sl.signed_fields))
            sl.signature pk
    ∧ (∀ r : AuthorizationResult, r.notary_seal = none →
        kora_verify_seal P r pk = .ok false) := by
  refine ⟨?_, kora_verify_seal_never_errors P r₁ pk,
    fun f => lookup_reconstruct (field_map r₁) sl.signed_fields f, ?_, ?_⟩
  · simp only [kora_verify_seal, h₁, h₂]
    rw [reconstruct_congr sl.signed_fields hagree]
  · simp only [kora_verify_seal, h₁]
  · intro r hr
    simp only [kora_verify_seal, hr]

theorem C2_verify_seal_reconstruction_witness :
    ∃ b, kora_verify_seal
      ⟨fun _ => none, fun _ => none, fun _ _ _ => true, fun _ => []⟩
      ⟨"i1", none, none, "APPROVED", "OK", some 500, some "EUR", some "aws",
        "t0", some 300, some "enforce", true,
        some ⟨"sig", "kid", "Ed25519", ["intent_id", "status"], "ts", none⟩⟩
      "pk" = Except.ok b :=
  (C2_verify_seal_reconstruction
    ⟨fun _ => none, fun _ => none, fun _ _ _ => true, fun _ => []⟩
    ⟨"i1", none, none, "APPROVED", "OK", some 500, some "EUR", some "aws",
      "t0", some 300, some "enforce", true,
      some ⟨"sig", "kid", "Ed25519", ["intent_id", "status"], "ts", none⟩⟩
    ⟨"i1", none, none, "APPROVED", "OK", some 500, some "EUR", some "aws",
      "t0", some 300, some "enforce", true,
      some ⟨"sig", "kid", "Ed25519", ["intent_id", "status"], "ts", none⟩⟩
    "pk"
    ⟨"sig", "kid", "Ed25519", ["intent_id", "status"], "ts", none⟩
    rfl rfl (fun _ _ => rfl)).2.1

/-- C5: verify_signature never raises and fails closed: for every message,
signature string and public-key string, and for every behaviour of the
external base64 and Ed25519 primitives, the result is a boolean which is true
exactly when the public key decodes to 32 bytes, the signature decodes to 64
bytes and the Ed25519 check accepts; every malformed or mismatched input
therefore yields false. -/
theorem C5_verify_signature_fail_closed (P : CryptoPrims) (message : List Nat)
    (signature_b64 public_key_b64 : String) :
    verify_signature P message signature_b64 public_key_b64 = true ↔
      ∃ pkb sig, P.b64decode public_key_b64 = some pkb ∧ pkb.length = 32
        ∧ P.b64decode signature_b64 = some sig ∧ sig.length = 64
        ∧ P.ed25519_verify pkb message sig = true := by
  unfold verify_signature
  cases hpk : P.b64decode public_key_b64 with
  | none => simp
  | some pkb =>
      by_cases hlen : pkb.length = 32
      · cases hsig : P.b64decode signature_b64 with
        | none => simp [hlen, hsig]
        | some sig =>
            by_cases hslen : sig.length = 64
            · simp [hlen, hsig, hslen]
            · simp [hlen, hsig, hslen]
      · simp [hlen]

theorem C5_verify_signature_fail_closed_witness :
    verify_signature
      ⟨fun s => some (List.replicate s.data.length 0), fun _ => none,
        fun _ _ _ => true, fun _ => []⟩
      [1, 2]
      "0000000000000000000000000000000000000000000000000000000000000000"
      "00000000000000000000000000000000" = true :=
  (C5_verify_signature_fail_closed _ _ _ _).mpr
    ⟨List.replicate 32 0, List.replicate 64 0, by decide, by decide, by decide,
      by decide, rfl⟩

/-- C9: canonicalize fails with an EncodingError exactly when the value
contains, at any depth, an object of a type with no defined canonical form,
and succeeds on every value built only from supported types. -/
theorem C9_canonicalize_unsupported_type (v : PyVal) :
    ((∃ e, canonicalize v = .error e) ↔ containsUnsupported v = true)
    ∧ ((∃ s, canonicalize v = .ok s) ↔ containsUnsupported v = false) :=
  ⟨canonicalize_error_iff v, canonicalize_ok_iff v⟩

/-- C10: a raw response dict in which neither the decision key nor the status
key holds a truthy value parses to the decision DENIED, whose approved
property is false: parsing fails closed. -/
theorem C10_parse_response_fail_closed (raw : List (String × PyVal))
    (hdec : pyTruthy (raw_get raw "decision") = false)
    (hstat : pyTruthy (raw_get raw "status") = false) :
    parse_response_decision raw = .str "DENIED" ∧ response_approved raw = false := by
  have hd : parse_response_decision raw = .str "DENIED" := by
    unfold parse_response_decision pyOr
    rw [hdec]
    simp only [Bool.false_eq_true, if_false]
    rw [hstat]
    simp
  exact ⟨hd, by simp [response_approved, hd]⟩

theorem C10_parse_response_fail_closed_witness :
    parse_response_decision [("status", PyVal.str ""), ("decision_id", PyVal.str "d1")]
        = PyVal.str "DENIED"
    ∧ response_approved [("status", PyVal.str ""), ("decision_id", PyVal.str "d1")]
        = false :=
  C10_parse_response_fail_closed _ (by rfl) (by rfl)

theorem evaluateChecks_outcome (s : SandboxState) (vendor : String)
    (amount_cents : Int) (currency : String) :
    ((evaluateChecks s vendor amount_cents currency).1.decision = "DENIED"
      ∧ (evaluateChecks s vendor amount_cents currency).1.approved = false
      ∧ (evaluateChecks s vendor amount_cents currency).2 = s)
    ∨ ((evaluateChecks s vendor amount_cents currency).1.decision = "APPROVED"
      ∧ (evaluateChecks s vendor amount_cents currency).1.approved = true
      ∧ daily_exceeded s amount_cents = false
      ∧ monthly_exceeded s amount_cents = false
      ∧ (evaluateChecks s vendor amount_cents currency).2
          = { s with daily_spent := s.daily_spent + amount_cents,
                     monthly_spent := s.monthly_spent + amount_cents,
                     tx_count := s.tx_count + 1 }) := by
  unfold evaluateChecks
  split_ifs <;>
    first
      | exact Or.inl ⟨rfl, rfl, rfl⟩
      | (refine Or.inr ⟨rfl, rfl, ?_, ?_, rfl⟩ <;> simp_all)

/-- C3: with counters within their limits, a DENIED evaluation leaves the
budget state unchanged, an APPROVED evaluation increments the daily and the
monthly counter together by the approved amount, and after the evaluation the
counters still satisfy their limits. -/
theorem C3_counters_atomic (s : SandboxState) (vendor : String)
    (amount_cents : Int) (currency : String) (outcome : SpendOutcome)
    (s2 : SandboxState)
    (hd : s.daily_spent ≤ s.daily_limit) (hm : s.monthly_spent ≤ s.monthly_limit)
    (hres : spendCore s vendor amount_cents currency = (Except.ok outcome, s2)) :
    (outcome.decision = "DENIED" → s2 = s)
    ∧ (outcome.decision = "APPROVED" →
        s2.daily_spent = s.daily_spent + amount_cents
        ∧ s2.monthly_spent = s.monthly_spent + amount_cents)
    ∧ s2.daily_spent ≤ s2.daily_limit ∧ s2.monthly_spent ≤ s2.monthly_limit := by
  unfold spendCore at hres
  split_ifs at hres with hv1 hv2 hv3
  · exact absurd (congrArg Prod.fst hres) (by simp)
  · exact absurd (congrArg Prod.fst hres) (by simp)
  · exact absurd (congrArg Prod.fst hres) (by simp)
  · have h1 : (evaluateChecks s (py_lower (py_strip vendor)) amount_cents
        (py_upper currency)).1 = outcome := by
      have := congrArg Prod.fst hres
      simpa using this
    have h2 : (evaluateChecks s (py_lower (py_strip vendor)) amount_cents
        (py_upper currency)).2 = s2 := by
      have := congrArg Prod.snd hres
      simpa using this
    rcases evaluateChecks_outcome s (py_lower (py_strip vendor)) amount_cents
        (py_upper currency) with ⟨hdec, happ, hst⟩ | ⟨hdec, happ, hde, hme, hst⟩
    · rw [h1] at hdec
      rw [h2] at hst
      subst hst
      refine ⟨fun _ => rfl, fun hA => absurd (hdec ▸ hA) (by decide), hd, hm⟩
    · rw [h1] at hdec
      rw [h2] at hst
      have hde2 : ¬ (s.daily_limit - s.daily_spent < amount_cents) :=
        of_decide_eq_false hde
      have hme2 : ¬ (s.monthly_limit - s.monthly_spent < amount_cents) :=
        of_decide_eq_false hme
      subst hst
      refine ⟨fun hD => absurd (hdec ▸ hD) (by decide), fun _ => ⟨rfl, rfl⟩, ?_, ?_⟩
      · simp
        omega
      · simp
        omega

theorem C3_counters_atomic_witness :
    (5000 : Int) ≤ 1000000 ∧ (5000 : Int) ≤ 5000000 :=
  (C3_counters_atomic (defaultSandboxState ⟨2026, 1, 2⟩) "aws" 5000 "EUR"
    { approved := true, decision := "APPROVED", reason_code := "OK", retry_with := none }
    { defaultSandboxState ⟨2026, 1, 2⟩ with
        daily_spent := 5000
        monthly_spent := 5000
        tx_count := 1 }
    (by decide) (by decide) (by rfl)).2.2

/-- C4: the evaluation pipeline checks run in the fixed order currency,
vendor allow-list (skipped when unconfigured), per-transaction cap (skipped
when unconfigured), daily remaining, monthly remaining, and short-circuit on
the first failure: every denial carries the reason code of the first violated
check, no violation gives APPROVED with reason OK, and in particular an
intent violating both the currency check and the daily limit is denied with
CURRENCY_MISMATCH. -/
theorem C4_pipeline_order (s : SandboxState) (vendor : String)
    (amount_cents : Int) (currency : String) :
    (∀ rc, firstFailedCheck s vendor amount_cents currency = some rc →
        (evaluateChecks s vendor amount_cents currency).1.decision = "DENIED"
        ∧ (evaluateChecks s vendor amount_cents currency).1.reason_code = rc)
    ∧ (firstFailedCheck s vendor amount_cents currency = none →
        (evaluateChecks s vendor amount_cents currency).1.decision = "APPROVED"
        ∧ (evaluateChecks s vendor amount_cents currency).1.reason_code = "OK")
    ∧ (currency_mismatch s currency = true → daily_exceeded s amount_cents = true →
        (evaluateChecks s vendor amount_cents currency).1.decision = "DENIED"
        ∧ (evaluateChecks s vendor amount_cents currency).1.reason_code
            = "CURRENCY_MISMATCH") := by
  cases hc1 : currency_mismatch s currency <;>
    cases hc2 : vendor_not_allowed s vendor <;>
      cases hc3 : per_tx_exceeded s amount_cents <;>
        cases hc4 : daily_exceeded s amount_cents <;>
          cases hc5 : monthly_exceeded s amount_cents <;>
            simp [evaluateChecks, firstFailedCheck, List.find?, hc1, hc2, hc3, hc4, hc5,
              deniedOutcome]

theorem C4_pipeline_order_witness :
    (evaluateChecks (defaultSandboxState ⟨2026, 1, 2⟩) "aws" 2000000 "USD").1.decision
        = "DENIED"
    ∧ (evaluateChecks (defaultSandboxState ⟨2026, 1, 2⟩) "aws" 2000000 "USD").1.reason_code
        = "CURRENCY_MISMATCH" :=
  (C4_pipeline_order (defaultSandboxState ⟨2026, 1, 2⟩) "aws" 2000000 "USD").2.2
    (by decide) (by decide)

/-- C6: calendar rollover runs before every evaluation and before every
budget query; when the stored day differs from today it zeroes the daily
counter, stores today, and zeroes the monthly counter exactly when today is
the first of the month; when the stored day equals today it is a no-op; and
it is idempotent within a day. -/
theorem C6_calendar_rollover (today : UTCDate) (s : SandboxState) :
    (∀ vendor amount_cents currency,
      spend today s vendor amount_cents currency
        = spendCore (auto_reset_if_new_day today s) vendor amount_cents currency)
    ∧ get_budget today s = budgetView (auto_reset_if_new_day today s)
    ∧ (today ≠ s.start_date →
        (auto_reset_if_new_day today s).daily_spent = 0
        ∧ (auto_reset_if_new_day today s).start_date = today
        ∧ (auto_reset_if_new_day today s).monthly_spent
            = (if today.day = 1 then 0 else s.monthly_spent))
    ∧ (today = s.start_date → auto_reset_if_new_day today s = s)
    ∧ auto_reset_if_new_day today (auto_reset_if_new_day today s)
        = auto_reset_if_new_day today s := by
  refine ⟨fun _ _ _ => rfl, rfl, ?_, ?_, ?_⟩
  · intro h
    by_cases hd : today.day = 1 <;> simp [auto_reset_if_new_day, h, hd]
  · intro h
    simp [auto_reset_if_new_day, h]
  · by_cases h : today = s.start_date
    · simp [auto_reset_if_new_day, h]
    · by_cases hd : today.day = 1 <;> simp [auto_reset_if_new_day, h, hd]

theorem C6_calendar_rollover_witness :
    auto_reset_if_new_day ⟨2026, 2, 1⟩
        (auto_reset_if_new_day ⟨2026, 2, 1⟩
          { defaultSandboxState ⟨2026, 1, 15⟩ with daily_spent := 7, monthly_spent := 9 })
      = auto_reset_if_new_day ⟨2026, 2, 1⟩
          { defaultSandboxState ⟨2026, 1, 15⟩ with daily_spent := 7, monthly_spent := 9 } :=
  (C6_calendar_rollover ⟨2026, 2, 1⟩
    { defaultSandboxState ⟨2026, 1, 15⟩ with daily_spent := 7, monthly_spent := 9 }).2.2.2.2

/-- C8 (amended): evaluation input validation fails with a ValidationError,
never a DENIED decision, exactly when the amount is not strictly positive,
the vendor is empty, or the currency is not exactly 3 characters long; a
validation failure leaves the budget state unchanged; and when validation
passes the checks run on the vendor normalized to stripped lower case and the
currency normalized to upper case. -/
theorem C8_validation_amended (s : SandboxState) (vendor : String)
    (amount_cents : Int) (currency : String) :
    ((∃ e, (spendCore s vendor amount_cents currency).1 = .error e) ↔
      (amount_cents ≤ 0 ∨ vendor = "" ∨ currency.length ≠ 3))
    ∧ ((∃ e, (spendCore s vendor amount_cents currency).1 = .error e) →
        (spendCore s vendor amount_cents currency).2 = s)
    ∧ (0 < amount_cents → vendor ≠ "" → currency.length = 3 →
        spendCore s vendor amount_cents currency
          = (Except.ok (evaluateChecks s (py_lower (py_strip vendor)) amount_cents
                (py_upper currency)).1,
             (evaluateChecks s (py_lower (py_strip vendor)) amount_cents
                (py_upper currency)).2)) := by
  unfold spendCore
  split_ifs with h1 h2 h3
  · refine ⟨?_, fun _ => rfl, ?_⟩
    · simp [h1]
    · intro hpos
      omega
  · refine ⟨?_, fun _ => rfl, ?_⟩
    · simp [h2]
    · intro _ hne
      exact absurd h2 hne
  · refine ⟨?_, fun _ => rfl, ?_⟩
    · simp [h3]
    · intro _ _ hlen
      exact absurd hlen h3
  · refine ⟨?_, ?_, fun _ _ _ => rfl⟩
    · simp [h1, h2, h3]
    · intro he
      obtain ⟨e, he⟩ := he
      simp at he

theorem C8_validation_amended_witness :
    (spendCore (defaultSandboxState ⟨2026, 1, 2⟩) "" 5000 "EUR").1
        = Except.error ⟨"vendor must be a non-empty string"⟩
    ∧ (spendCore (defaultSandboxState ⟨2026, 1, 2⟩) "" 5000 "EUR").2
        = defaultSandboxState ⟨2026, 1, 2⟩ :=
  ⟨by rfl,
    (C8_validation_amended (defaultSandboxState ⟨2026, 1, 2⟩) "" 5000 "EUR").2.1
      ⟨⟨"vendor must be a non-empty string"⟩, by rfl⟩⟩

theorem C8_validation_counterexample :
    (spendCore (defaultSandboxState ⟨2026, 1, 2⟩) "aws" 5000 "eu1").1
        = Except.ok (deniedOutcome "CURRENCY_MISMATCH" none)
    ∧ ("eu1".data.all (fun c => c.isAlpha)) = false :=
  ⟨by rfl, by decide⟩

theorem fromhex_chars : ∀ (cs : List Char) (bs : List Nat),
    fromhex cs = some bs → ∀ x ∈ cs, isPyWs x = true ∨ isHexDig x = true
  | [], _, _, x, hx => absurd hx (List.not_mem_nil x)
  | [c], bs, h, x, hx => by
      by_cases hws : isPyWs c = true
      · have hxc : x = c := by simpa using hx
        exact Or.inl (hxc ▸ hws)
      · simp [fromhex, hws] at h
  | c :: d :: cs2, bs, h, x, hx => by
      rw [fromhex] at h
      by_cases hws : isPyWs c = true
      · rw [if_pos hws] at h
        cases List.mem_cons.mp hx with
        | inl he => exact Or.inl (he ▸ hws)
        | inr ht => exact fromhex_chars (d :: cs2) bs h x ht
      · rw [if_neg hws] at h
        by_cases hhex : isHexDig c = true
        · rw [if_pos hhex] at h
          by_cases hd : isHexDig d = true
          · rw [if_pos hd] at h
            cases h2 : fromhex cs2 with
            | none => rw [h2] at h; simp at h
            | some bs2 =>
                rw [h2] at h
                rcases List.mem_cons.mp hx with he | ht
                · exact Or.inr (he ▸ hhex)
                · rcases List.mem_cons.mp ht with he2 | ht2
                  · exact Or.inr (he2 ▸ hd)
                  · exact fromhex_chars cs2 bs2 h2 x ht2
          · rw [if_neg hd] at h
            simp at h
        · rw [if_neg hhex] at h
          simp at h

theorem count_after_colon : ∀ cs : List Char, ':' ∈ cs →
    cs.count ':' = 1 + ((cs.dropWhile (fun c => c != ':')).drop 1).count ':' := by
  intro cs
  induction cs with
  | nil => intro h; cases h
  | cons c cs ih =>
      intro h
      by_cases hc : c = ':'
      · subst hc
        have hdw : (':' :: cs).dropWhile (fun x => x != ':') = ':' :: cs := by
          simp [List.dropWhile_cons]
        rw [hdw]
        simp [List.count_cons]
        omega
      · have hcs : ':' ∈ cs := by
          cases h with
          | head => exact absurd rfl hc
          | tail _ ht => exact ht
        have hdw : (c :: cs).dropWhile (fun x => x != ':') = cs.dropWhile (fun x => x != ':') := by
          simp [List.dropWhile_cons, hc]
        have h1 : List.count ':' (c :: cs) = List.count ':' cs := by
          simp [List.count_cons, hc]
        rw [hdw, h1]
        exact ih hcs

theorem count_colon_eq_one {cs : List Char} (hc : ':' ∈ cs) {bs : List Nat}
    (hx : fromhex ((cs.dropWhile (fun c => c != ':')).drop 1) = some bs) :
    cs.count ':' = 1 := by
  rw [count_after_colon cs hc]
  have hz : ((cs.dropWhile (fun c => c != ':')).drop 1).count ':' = 0 := by
    rw [List.count_eq_zero]
    intro hmem
    rcases fromhex_chars _ bs hx ':' hmem with h | h
    · exact absurd h (by decide)
    · exact absurd h (by decide)
  omega

theorem mem_of_count_colon_one {cs : List Char} (h : cs.count ':' = 1) : ':' ∈ cs := by
  have : 0 < cs.count ':' := by omega
  exact List.count_pos_iff.mp this

/-- C7: parse_agent_key succeeds with an (agent id, signing key) pair exactly
when the string starts with the fixed literal lead, the remainder decodes via
base64 to UTF-8 text containing exactly one colon separator, the part before
the colon (the agent id) is non-empty, and the part after it is valid
hexadecimal decoding to exactly 32 bytes; every violation produces the
FormatError naming the specific violated rule (bad lead, bad base64, missing
separator, empty agent id, bad hex, wrong length).  The function is pure. -/
theorem C7_parse_agent_key (P : CryptoPrims) (ks : String) :
    ((∃ aid sk, parse_agent_key P ks = .ok (aid, sk)) ↔
      (AGENT_SK_TAG.data.isPrefixOf ks.data = true
        ∧ ∃ decoded, P.b64ToUtf8 ⟨ks.data.drop AGENT_SK_TAG.data.length⟩ = some decoded
          ∧ decoded.data.count ':' = 1
          ∧ decoded.data.takeWhile (fun c => c != ':') ≠ []
          ∧ ∃ bs, fromhex ((decoded.data.dropWhile (fun c => c != ':')).drop 1) = some bs
              ∧ bs.length = 32))
    ∧ (AGENT_SK_TAG.data.isPrefixOf ks.data = false →
        parse_agent_key P ks = .error .badTag)
    ∧ (AGENT_SK_TAG.data.isPrefixOf ks.data = true →
        P.b64ToUtf8 ⟨ks.data.drop AGENT_SK_TAG.data.length⟩ = none →
        parse_agent_key P ks = .error .badBase64)
    ∧ (∀ decoded, AGENT_SK_TAG.data.isPrefixOf ks.data = true →
        P.b64ToUtf8 ⟨ks.data.drop AGENT_SK_TAG.data.length⟩ = some decoded →
        ¬ (':' ∈ decoded.data) →
        parse_agent_key P ks = .error .missingSeparator)
    ∧ (∀ decoded, AGENT_SK_TAG.data.isPrefixOf ks.data = true →
        P.b64ToUtf8 ⟨ks.data.drop AGENT_SK_TAG.data.length⟩ = some decoded →
        (':' ∈ decoded.data) →
        decoded.data.takeWhile (fun c => c != ':') = [] →
        parse_agent_key P ks = .error .emptyAgentId)
    ∧ (∀ decoded, AGENT_SK_TAG.data.isPrefixOf ks.data = true →
        P.b64ToUtf8 ⟨ks.data.drop AGENT_SK_TAG.data.length⟩ = some decoded →
        (':' ∈ decoded.data) →
        decoded.data.takeWhile (fun c => c != ':') ≠ [] →
        fromhex ((decoded.data.dropWhile (fun c => c != ':')).drop 1) = none →
        parse_agent_key P ks = .error .badHex)
    ∧ (∀ decoded bs, AGENT_SK_TAG.data.isPrefixOf ks.data = true →
        P.b64ToUtf8 ⟨ks.data.drop AGENT_SK_TAG.data.length⟩ = some decoded →
        (':' ∈ decoded.data) →
        decoded.data.takeWhile (fun c => c != ':') ≠ [] →
        fromhex ((decoded.data.dropWhile (fun c => c != ':')).drop 1) = some bs →
        bs.length ≠ 32 →
        parse_agent_key P ks = .error (.wrongLength bs.length)) := by
  have hTag : AGENT_SK_TAG.data.isPrefixOf ks.data = false →
      parse_agent_key P ks = .error .badTag := by
    intro h
    simp only [parse_agent_key]
    rw [if_pos (by simp [h])]
  have hB64 : AGENT_SK_TAG.data.isPrefixOf ks.data = true →
      P.b64ToUtf8 ⟨ks.data.drop AGENT_SK_TAG.data.length⟩ = none →
      parse_agent_key P ks = .error .badBase64 := by
    intro hpre henc
    simp only [parse_agent_key]
    rw [if_neg (fun hcon => hcon hpre), henc]
  have hSep : ∀ decoded, AGENT_SK_TAG.data.isPrefixOf ks.data = true →
      P.b64ToUtf8 ⟨ks.data.drop AGENT_SK_TAG.data.length⟩ = some decoded →
      ¬ (':' ∈ decoded.data) →
      parse_agent_key P ks = .error .missingSeparator := by
    intro decoded hpre henc hc
    simp only [parse_agent_key]
    rw [if_neg (fun hcon => hcon hpre), henc]
    simp only []
    rw [if_pos hc]
  have hEmpty : ∀ decoded, AGENT_SK_TAG.data.isPrefixOf ks.data = true →
      P.b64ToUtf8 ⟨ks.data.drop AGENT_SK_TAG.data.length⟩ = some decoded →
      (':' ∈ decoded.data) →
      decoded.data.takeWhile (fun c => c != ':') = [] →
      parse_agent_key P ks = .error .emptyAgentId := by
    intro decoded hpre henc hc hq
    simp only [parse_agent_key]
    rw [if_neg (fun hcon => hcon hpre), henc]
    simp only []
    rw [if_neg (fun hcon => hcon hc), if_pos hq]
  have hHex : ∀ decoded, AGENT_SK_TAG.data.isPrefixOf ks.data = true →
      P.b64ToUtf8 ⟨ks.data.drop AGENT_SK_TAG.data.length⟩ = some decoded →
      (':' ∈ decoded.data) →
      decoded.data.takeWhile (fun c => c != ':') ≠ [] →
      fromhex ((decoded.data.dropWhile (fun c => c != ':')).drop 1) = none →
      parse_agent_key P ks = .error .badHex := by
    intro decoded hpre henc hc hne hfh
    simp only [parse_agent_key]
    rw [if_neg (fun hcon => hcon hpre), henc]
    simp only []
    rw [if_neg (fun hcon => hcon hc), if_neg hne, hfh]
  have hLen : ∀ decoded bs, AGENT_SK_TAG.data.isPrefixOf ks.data = true →
      P.b64ToUtf8 ⟨ks.data.drop AGENT_SK_TAG.data.length⟩ = some decoded →
      (':' ∈ decoded.data) →
      decoded.data.takeWhile (fun c => c != ':') ≠ [] →
      fromhex ((decoded.data.dropWhile (fun c => c != ':')).drop 1) = some bs →
      bs.length ≠ 32 →
      parse_agent_key P ks = .error (.wrongLength bs.length) := by
    intro decoded bs hpre henc hc hne hfh hlen
    simp only [parse_agent_key]
    rw [if_neg (fun hcon => hcon hpre), henc]
    simp only []
    rw [if_neg (fun hcon => hcon hc), if_neg hne, hfh]
    simp only []
    rw [if_pos hlen]
  refine ⟨?_, hTag, hB64, hSep, hEmpty, hHex, hLen⟩
  constructor
  · rintro ⟨aid, sk, hok⟩
    cases hpre : AGENT_SK_TAG.data.isPrefixOf ks.data with
    | false =>
        rw [hTag hpre] at hok
        simp at hok
    | true => cases henc : P.b64ToUtf8 ⟨ks.data.drop AGENT_SK_TAG.data.length⟩ with
      | none =>
          rw [hB64 hpre henc] at hok
          simp at hok
      | some decoded =>
          by_cases hc : ':' ∈ decoded.data
          · by_cases hq : decoded.data.takeWhile (fun c => c != ':') = []
            · rw [hEmpty decoded hpre henc hc hq] at hok
              simp at hok
            · cases hfh : fromhex ((decoded.data.dropWhile (fun c => c != ':')).drop 1) with
              | none =>
                  rw [hHex decoded hpre henc hc hq hfh] at hok
                  simp at hok
              | some bs =>
                  by_cases hlen : bs.length = 32
                  · exact ⟨rfl, decoded, rfl, count_colon_eq_one hc hfh, hq, bs, hfh, hlen⟩
                  · rw [hLen decoded bs hpre henc hc hq hfh hlen] at hok
                    simp at hok
          · rw [hSep decoded hpre henc hc] at hok
            simp at hok
  · rintro ⟨hpre, decoded, henc, hcount, hne, bs, hfh, hlen⟩
    have hc : ':' ∈ decoded.data := mem_of_count_colon_one hcount
    refine ⟨⟨decoded.data.takeWhile (fun c => c != ':')⟩, ⟨bs⟩, ?_⟩
    simp only [parse_agent_key]
    rw [if_neg (fun hcon => hcon hpre), henc]
    simp only []
    rw [if_neg (fun hcon => hcon hc), if_neg hne, hfh]
    simp only []
    rw [if_neg (fun hcon => hcon hlen)]

theorem C7_parse_agent_key_witness :
    ∃ aid sk, parse_agent_key
      ⟨fun _ => none,
        fun _ => some "alice:0000000000000000000000000000000000000000000000000000000000000000",
        fun _ _ _ => true, fun _ => []⟩
      "kora_agent_sk_xyz" = .ok (aid, sk) :=
  ((C7_parse_agent_key
    ⟨fun _ => none,
      fun _ => some "alice:0000000000000000000000000000000000000000000000000000000000000000",
      fun _ _ _ => true, fun _ => []⟩
    "kora_agent_sk_xyz").1).mpr
    ⟨by decide,
      "alice:0000000000000000000000000000000000000000000000000000000000000000",
      rfl, by decide, by decide, List.replicate 32 0, by rfl, by rfl⟩
